import Mathlib

/-!
Verification of the Pasco school-safety analysis scripts.

This file gives a shallow embedding of the two scripts
`scripts/pasco_network_analysis.py` and `scripts/pasco_school_buffer.py`
(plus the small reprojection utility) and proves the documented
properties of the isochrone (reachability-to-polygon) computation, the
CRS handling, and the buffer construction.

Modelling conventions:
  * coordinates and travel times are rationals (the scripts use exact
    arithmetic-free float formulas; no float rounding is relevant to the
    stated properties);
  * the networkx call `single_source_dijkstra_path_length` is modelled
    as the shortest-path distance map computed by |V| rounds of edge
    relaxation (Bellman–Ford), which coincides with Dijkstra's output on
    the non-negative travel-time weights the script constructs;
  * shapely's `MultiPoint(...).convex_hull` is modelled by an Andrew
    monotone-chain hull over exact rational points, classified the way
    shapely classifies it (empty / Point / LineString / Polygon);
  * geopandas layers are modelled by their CRS tag where only the CRS
    matters to the property, and buffers by the open disc (interior of
    the dilation) where only containment of the centre matters.
-/

namespace Pasco

/-- A projected 2-D point (a graph-node position or a school location). -/
structure Point where
  x : ℚ
  y : ℚ
deriving DecidableEq

/-- A directed road-network edge after the travel-time loop of the script:
endpoints by node id plus the derived `travel_time` attribute.  Parallel
edges are allowed (the source graph is a MultiDiGraph): the list of edges
may contain several entries for the same endpoint pair. -/
structure Edge where
  u : Nat
  v : Nat
  travel_time : ℚ
deriving DecidableEq

/-- The projected road network: nodes (id with stored position) and
directed weighted edges. -/
structure Graph where
  nodes : List (Nat × Point)
  edges : List Edge
deriving DecidableEq

/-- A raw downloaded edge, before the travel-time loop: the `length`
attribute may be absent (the script reads it with `data.get('length', 0)`). -/
structure RawEdge where
  u : Nat
  v : Nat
  length : Option ℚ
deriving DecidableEq

/-- `speed_mph = 25` from the script. -/
def speed_mph : ℚ := 25

/-- `speed_mps = speed_mph * 0.44704` from the script. -/
def speed_mps : ℚ := speed_mph * 0.44704

/-- The travel-time derivation of the script's edge loop:
`data['travel_time'] = data['length'] / speed_mps` when
`data.get('length', 0) > 0`, and `0` otherwise. -/
def add_travel_time (len : Option ℚ) : ℚ :=
  if 0 < len.getD 0 then len.getD 0 / speed_mps else 0

/-- The edge loop of section 2 of the network script: derive the
`travel_time` attribute of every edge from its `length` attribute. -/
def mkGraph (ns : List (Nat × Point)) (es : List RawEdge) : Graph :=
  ⟨ns, es.map (fun e => ⟨e.u, e.v, add_travel_time e.length⟩)⟩

/-- The node ids of a graph. -/
def nodeIds (G : Graph) : List Nat := G.nodes.map Prod.fst

/-- One relaxation of a single directed edge over a partial distance map
(`none` = not reached yet). -/
def relaxEdge (s : Nat → Option ℚ) (e : Edge) : Nat → Option ℚ :=
  fun n =>
    if n = e.v then
      match s e.u, s e.v with
      | some du, some dv => some (min dv (du + e.travel_time))
      | some du, none => some (du + e.travel_time)
      | none, dv => dv
    else s n

/-- Relax every edge of the list once, left to right. -/
def relaxAll (es : List Edge) (s : Nat → Option ℚ) : Nat → Option ℚ :=
  es.foldl relaxEdge s

/-- Iterate full relaxation rounds. -/
def bfIter (es : List Edge) : Nat → (Nat → Option ℚ) → (Nat → Option ℚ)
  | 0, s => s
  | k + 1, s => bfIter es k (relaxAll es s)

/-- The initial distance map: the source at distance 0, nothing else
reached. -/
def initDist (source : Nat) : Nat → Option ℚ :=
  fun n => if n = source then some 0 else none

/-- Model of the library call
`nx.single_source_dijkstra_path_length(G, center_node, weight='travel_time')`:
the map from node id to shortest travel time from the source (`none` for
unreachable nodes), computed by |V| rounds of edge relaxation.  On the
non-negative weights produced by the travel-time loop this is exactly the
distance map Dijkstra's algorithm returns. -/
def single_source_dijkstra_path_length (G : Graph) (source : Nat) : Nat → Option ℚ :=
  bfIter G.edges G.nodes.length (initDist source)

/-- The filter of `generate_isochrone`:
`[node for node, t in travel_times.items() if t <= travel_time_limit]`,
as a Boolean predicate on a graph node. -/
def reachPred (G : Graph) (c : Nat) (t : ℚ) (np : Nat × Point) : Bool :=
  match single_source_dijkstra_path_length G c np.1 with
  | some d => decide (d ≤ t)
  | none => false

/-- The reachable nodes of `generate_isochrone`, paired with their stored
positions (`nodes.loc[reachable_nodes]['geometry']`).  The networkx
distance map only ever mentions nodes of the graph, so filtering the
node list by the distance predicate yields the same set as filtering the
distance map's items. -/
def reachablePairs (G : Graph) (c : Nat) (t : ℚ) : List (Nat × Point) :=
  G.nodes.filter (reachPred G c t)

/-- The reachable node ids. -/
def reachableIds (G : Graph) (c : Nat) (t : ℚ) : List Nat :=
  (reachablePairs G c t).map Prod.fst

/-- A shapely geometry as produced by `MultiPoint(...).convex_hull`:
the hull of no points is empty, of one point a Point, of collinear
points a LineString, otherwise a Polygon given by its hull ring. -/
inductive Geom where
  | empty : Geom
  | point : Point → Geom
  | linestring : List Point → Geom
  | polygon : List Point → Geom
deriving DecidableEq

/-- Lexicographic comparison of points, used to sort hull input. -/
def ptLeB (p q : Point) : Bool :=
  decide (p.x < q.x) || (decide (p.x = q.x) && decide (p.y ≤ q.y))

/-- Insertion into a lexicographically sorted list of points. -/
def insertPt (p : Point) : List Point → List Point
  | [] => [p]
  | q :: r => if ptLeB p q then p :: q :: r else q :: insertPt p r

/-- Insertion sort of points. -/
def sortPts (ps : List Point) : List Point := ps.foldr insertPt []

/-- Remove adjacent duplicates (after sorting, all duplicates are
adjacent). -/
def dedupAdj : List Point → List Point
  | [] => []
  | [p] => [p]
  | p :: q :: r => if p = q then dedupAdj (q :: r) else p :: dedupAdj (q :: r)

/-- 2-D cross product of `oa` and `ob`: positive for a left turn. -/
def cross (o a b : Point) : ℚ :=
  (a.x - o.x) * (b.y - o.y) - (a.y - o.y) * (b.x - o.x)

/-- One step of the monotone-chain construction: push `p`, popping the
chain while the turn is not strictly left.  The chain is kept reversed
(most recent point first). -/
def addHullPt (h : List Point) (p : Point) : List Point :=
  match h with
  | a :: b :: rest => if cross b a p ≤ 0 then addHullPt (b :: rest) p else p :: h
  | _ => p :: h

/-- Half (lower or upper) hull of an ordered point list. -/
def halfHull (ps : List Point) : List Point := ps.foldl addHullPt []

/-- Model of shapely's `MultiPoint(points).convex_hull` over exact
rational coordinates: Andrew's monotone chain, with the result
classified as shapely classifies it (empty collection, Point,
LineString for collinear input, else Polygon). -/
def convex_hull (ps : List Point) : Geom :=
  let s := dedupAdj (sortPts ps)
  match s with
  | [] => Geom.empty
  | [p] => Geom.point p
  | _ =>
    let lower := (halfHull s).reverse.dropLast
    let upper := (halfHull s.reverse).reverse.dropLast
    let ring := lower ++ upper
    if 3 ≤ ring.length then Geom.polygon ring else Geom.linestring ring

/-- `generate_isochrone` from the network script: Dijkstra distance map
from the centre, filter by the travel-time limit, look the survivors'
positions up, and return `None` for an empty point set, else the convex
hull of the points. -/
def generate_isochrone (G : Graph) (center_node : Nat) (travel_time_limit : ℚ) : Option Geom :=
  let reachable_points := (reachablePairs G center_node travel_time_limit).map Prod.snd
  if reachable_points.isEmpty then none
  else some (convex_hull reachable_points)

/-- The reachable node positions as the spec's §4.1 algorithm describes
them: filter the node→distance mapping by the threshold and map the
surviving node ids to their stored coordinates. -/
def spec_reachable_positions (G : Graph) (c : Nat) (t : ℚ) : List Point :=
  G.nodes.filterMap fun np =>
    match single_source_dijkstra_path_length G c np.1 with
    | some d => if d ≤ t then some np.2 else none
    | none => none

/-- `isochrone_thresholds = [5, 10, 15]` minutes, in seconds, from the
script. -/
def thresholds_seconds : List ℚ := [5, 10, 15].map (fun t => t * 60)

/-- Section 5 of the network script: the isochrone computed per
threshold, in threshold order (the `isochrones` dict). -/
def script_isochrones (G : Graph) (c : Nat) (ts : List ℚ) : List (ℚ × Option Geom) :=
  ts.map fun t => (t, generate_isochrone G c t)

/-- The export loop of section 6: append a row for every isochrone that
is not `None`; `None` rows are silently skipped. -/
def exportRows (iso : List (ℚ × Option Geom)) : List (ℚ × Geom) :=
  iso.filterMap fun r => r.2.map fun g => (r.1, g)

/-- The rows the script writes to `data/isochrones.geojson`. -/
def script_export (G : Graph) (c : Nat) (ts : List ℚ) : List (ℚ × Geom) :=
  exportRows (script_isochrones G c ts)

/-- Whether an exported geometry is a (non-degenerate) polygon. -/
def isPolygon : Geom → Bool
  | Geom.polygon _ => true
  | _ => false

/-- `pandas.Series.get(key, default)` on an attribute row, as used by
`selected_school.get("name", "Selected School")`: return the stored
value when the column exists, the default otherwise — never an error. -/
def series_get (row : List (String × String)) (key d : String) : String :=
  match row.find? (fun kv => kv.1 == key) with
  | some kv => kv.2
  | none => d

/-- `school_name = selected_school.get("name", "Selected School")` from
the network script. -/
def school_name (row : List (String × String)) : String :=
  series_get row "name" "Selected School"

/-- A geodata layer, modelled by the one piece of state the CRS
invariant is about: its coordinate reference system tag. -/
structure Layer where
  crs : String
deriving DecidableEq

/-- `layer.to_crs(c)`: after reprojection the layer carries CRS `c`
(the coordinate transformation itself is a library primitive outside
the stated invariant). -/
def to_crs (_l : Layer) (c : String) : Layer := ⟨c⟩

/-- `target_crs = "EPSG:3857"` from the buffer script. -/
def target_crs : String := "EPSG:3857"

/-- The conditional reprojection of the buffer script:
`if layer.crs != target_crs: layer = layer.to_crs(target_crs)`. -/
def reproject_to_target (l : Layer) : Layer :=
  if l.crs ≠ target_crs then to_crs l target_crs else l

/-- The four input layers of the buffer script. -/
structure BufferScriptState where
  schools : Layer
  police : Layer
  fire : Layer
  county : Layer

/-- Section 2 of the buffer script: reproject all four layers. -/
def buffer_script_reproject (s : BufferScriptState) : BufferScriptState :=
  ⟨reproject_to_target s.schools, reproject_to_target s.police,
   reproject_to_target s.fire, reproject_to_target s.county⟩

/-- `schools = schools.to_crs(graph_crs)` from the network script,
performed before the nearest-node lookup. -/
def network_script_schools (schools : Layer) (graph_crs : String) : Layer :=
  to_crs schools graph_crs

/-- `buffer_distances` from the buffer script: miles converted to metres
at 1 mile = 1609.34 m. -/
def buffer_distances : List (String × ℚ) :=
  [("0.5_mile", 0.5 * 1609.34),
   ("1_mile", 1 * 1609.34),
   ("1.5_mile", 1.5 * 1609.34)]

/-- Squared Euclidean distance between two projected points. -/
def sqDist (p q : Point) : ℚ := (q.x - p.x) ^ 2 + (q.y - p.y) ^ 2

/-- Membership of `q` in the interior of the buffer of `c` at distance
`d` (shapely's `buffer` dilation of a point; an empty region for a
non-positive distance). -/
def buffer_contains (c : Point) (d : ℚ) (q : Point) : Bool :=
  decide (0 < d) && decide (sqDist c q < d ^ 2)

/-- Invariant of the distance maps arising during relaxation from source
`c` over strictly positive weights: every recorded distance is
non-negative, and every recorded distance of a node other than the
source is strictly positive. -/
def DistInv (c : Nat) (s : Nat → Option ℚ) : Prop :=
  (∀ n x, s n = some x → 0 ≤ x) ∧ ∀ n x, n ≠ c → s n = some x → 0 < x

/-- Concrete sample points used in the closed corollaries below. -/
def p0 : Point := ⟨0, 0⟩

/-- Concrete sample point. -/
def p1 : Point := ⟨1, 0⟩

/-- Concrete sample point. -/
def p2 : Point := ⟨0, 1⟩

/-- A one-node road network with no edges. -/
def g1 : Graph := ⟨[(0, p0)], []⟩

/-- A two-node network built by the travel-time loop from one edge whose
`length` attribute is `0`; the loop derives `travel_time = 0` for it. -/
def gz : Graph := mkGraph [(0, p0), (1, p1)] [⟨0, 1, some 0⟩]

/-- A two-node network with one strictly positive travel-time edge. -/
def g2 : Graph := ⟨[(0, p0), (1, p1)], [⟨0, 1, 1⟩]⟩

/-- A three-node network: travel time 1 to node 1 and 3 to node 2. -/
def g3 : Graph := ⟨[(0, p0), (1, p1), (2, p2)], [⟨0, 1, 1⟩, ⟨0, 2, 3⟩]⟩

/-- Relaxing one edge never removes a recorded distance and never
increases it. -/
lemma relaxEdge_some_le (s : Nat → Option ℚ) (e : Edge) (n : Nat) (x : ℚ)
    (h : s n = some x) : ∃ y, relaxEdge s e n = some y ∧ y ≤ x := by
  unfold relaxEdge
  by_cases hv : n = e.v
  · subst hv
    rw [if_pos rfl]
    cases hu : s e.u with
    | none => rw [h]; exact ⟨x, rfl, le_refl x⟩
    | some du => rw [h]; exact ⟨min x (du + e.travel_time), rfl, min_le_left _ _⟩
  · rw [if_neg hv]
    exact ⟨x, h, le_refl x⟩

/-- Relaxing a list of edges never removes a recorded distance and never
increases it. -/
lemma relaxAll_some_le (es : List Edge) :
    ∀ (s : Nat → Option ℚ) (n : Nat) (x : ℚ), s n = some x →
      ∃ y, relaxAll es s n = some y ∧ y ≤ x := by
  induction es with
  | nil => intro s n x h; exact ⟨x, h, le_refl x⟩
  | cons e rest ih =>
    intro s n x h
    obtain ⟨y, hy, hyx⟩ := relaxEdge_some_le s e n x h
    obtain ⟨z, hz, hzy⟩ := ih (relaxEdge s e) n y hy
    exact ⟨z, hz, le_trans hzy hyx⟩

/-- Iterated relaxation never removes a recorded distance and never
increases it. -/
lemma bfIter_some_le (es : List Edge) :
    ∀ (k : Nat) (s : Nat → Option ℚ) (n : Nat) (x : ℚ), s n = some x →
      ∃ y, bfIter es k s n = some y ∧ y ≤ x := by
  intro k
  induction k with
  | zero => intro s n x h; exact ⟨x, h, le_refl x⟩
  | succ k ih =>
    intro s n x h
    obtain ⟨y, hy, hyx⟩ := relaxAll_some_le es s n x h
    obtain ⟨z, hz, hzy⟩ := ih (relaxAll es s) n y hy
    exact ⟨z, hz, le_trans hzy hyx⟩

/-- The source always keeps a recorded distance, and it stays `≤ 0`. -/
lemma sssp_source_le_zero (G : Graph) (c : Nat) :
    ∃ y, single_source_dijkstra_path_length G c c = some y ∧ y ≤ 0 := by
  have h : initDist c c = some 0 := by simp [initDist]
  exact bfIter_some_le G.edges G.nodes.length (initDist c) c 0 h

/-- Relaxing one non-negative-weight edge preserves non-negativity of
all recorded distances. -/
lemma relaxEdge_nonneg (s : Nat → Option ℚ) (e : Edge)
    (hs : ∀ n x, s n = some x → 0 ≤ x) (he : 0 ≤ e.travel_time) :
    ∀ n x, relaxEdge s e n = some x → 0 ≤ x := by
  intro n x h
  unfold relaxEdge at h
  by_cases hv : n = e.v
  · rw [if_pos hv] at h
    cases hu : s e.u with
    | none =>
      rw [hu] at h
      exact hs e.v x h
    | some du =>
      rw [hu] at h
      have hdu : 0 ≤ du := hs e.u du hu
      cases hvv : s e.v with
      | none =>
        rw [hvv] at h
        obtain rfl : du + e.travel_time = x := by simpa using h
        exact add_nonneg hdu he
      | some dv =>
        rw [hvv] at h
        have hdv : 0 ≤ dv := hs e.v dv hvv
        obtain rfl : min dv (du + e.travel_time) = x := by simpa using h
        exact le_min hdv (add_nonneg hdu he)
  · rw [if_neg hv] at h
    exact hs n x h

/-- Relaxing a list of non-negative-weight edges preserves
non-negativity of all recorded distances. -/
lemma relaxAll_nonneg (es : List Edge) :
    ∀ (s : Nat → Option ℚ), (∀ e ∈ es, 0 ≤ e.travel_time) →
      (∀ n x, s n = some x → 0 ≤ x) →
      ∀ n x, relaxAll es s n = some x → 0 ≤ x := by
  induction es with
  | nil => intro s _ hs n x h; exact hs n x h
  | cons e rest ih =>
    intro s hes hs n x h
    have he : 0 ≤ e.travel_time := hes e (List.mem_cons_self e rest)
    have hrest : ∀ f ∈ rest, 0 ≤ f.travel_time :=
      fun f hf => hes f (List.mem_cons_of_mem e hf)
    exact ih (relaxEdge s e) hrest (relaxEdge_nonneg s e hs he) n x h

/-- Iterated relaxation over non-negative weights preserves
non-negativity of all recorded distances. -/
lemma bfIter_nonneg (es : List Edge) (hes : ∀ e ∈ es, 0 ≤ e.travel_time) :
    ∀ (k : Nat) (s : Nat → Option ℚ), (∀ n x, s n = some x → 0 ≤ x) →
      ∀ n x, bfIter es k s n = some x → 0 ≤ x := by
  intro k
  induction k with
  | zero => intro s hs n x h; exact hs n x h
  | succ k ih =>
    intro s hs n x h
    exact ih (relaxAll es s) (relaxAll_nonneg es s hes hs) n x h

/-- Over non-negative weights every computed shortest distance is
non-negative. -/
lemma sssp_nonneg (G : Graph) (c : Nat)
    (hw : ∀ e ∈ G.edges, 0 ≤ e.travel_time) :
    ∀ n x, single_source_dijkstra_path_length G c n = some x → 0 ≤ x := by
  have h0 : ∀ n x, initDist c n = some x → 0 ≤ x := by
    intro n x h
    unfold initDist at h
    by_cases hn : n = c
    · rw [if_pos hn] at h
      obtain rfl : (0 : ℚ) = x := by simpa using h
      exact le_refl 0
    · rw [if_neg hn] at h
      exact absurd h (by simp)
  exact bfIter_nonneg G.edges hw G.nodes.length (initDist c) h0

/-- Over non-negative weights the source's computed distance is exactly 0. -/
lemma sssp_source_zero (G : Graph) (c : Nat)
    (hw : ∀ e ∈ G.edges, 0 ≤ e.travel_time) :
    single_source_dijkstra_path_length G c c = some 0 := by
  obtain ⟨y, hy, hle⟩ := sssp_source_le_zero G c
  have hge : 0 ≤ y := sssp_nonneg G c hw c y hy
  rw [hy, le_antisymm hle hge]

/-- Relaxing one strictly positive edge preserves `DistInv`. -/
lemma relaxEdge_distInv (s : Nat → Option ℚ) (e : Edge) (c : Nat)
    (he : 0 < e.travel_time) (h : DistInv c s) : DistInv c (relaxEdge s e) := by
  obtain ⟨hnn, hpos⟩ := h
  refine ⟨relaxEdge_nonneg s e hnn (le_of_lt he), ?_⟩
  intro n x hnc hx
  unfold relaxEdge at hx
  by_cases hv : n = e.v
  · rw [if_pos hv] at hx
    subst hv
    cases hu : s e.u with
    | none =>
      rw [hu] at hx
      exact hpos e.v x hnc hx
    | some du =>
      rw [hu] at hx
      have hdu : 0 ≤ du := hnn e.u du hu
      have hsum : 0 < du + e.travel_time := add_pos_of_nonneg_of_pos hdu he
      cases hvv : s e.v with
      | none =>
        rw [hvv] at hx
        obtain rfl : du + e.travel_time = x := by simpa using hx
        exact hsum
      | some dv =>
        rw [hvv] at hx
        have hdv : 0 < dv := hpos e.v dv hnc hvv
        obtain rfl : min dv (du + e.travel_time) = x := by simpa using hx
        exact lt_min hdv hsum
  · rw [if_neg hv] at hx
    exact hpos n x hnc hx

/-- Relaxing a list of strictly positive edges preserves `DistInv`. -/
lemma relaxAll_distInv (es : List Edge) :
    ∀ (s : Nat → Option ℚ) (c : Nat), (∀ e ∈ es, 0 < e.travel_time) →
      DistInv c s → DistInv c (relaxAll es s) := by
  induction es with
  | nil => intro s c _ h; exact h
  | cons e rest ih =>
    intro s c hes h
    have he : 0 < e.travel_time := hes e (List.mem_cons_self e rest)
    have hrest : ∀ f ∈ rest, 0 < f.travel_time :=
      fun f hf => hes f (List.mem_cons_of_mem e hf)
    exact ih (relaxEdge s e) c hrest (relaxEdge_distInv s e c he h)

/-- Iterated relaxation over strictly positive edges preserves `DistInv`. -/
lemma bfIter_distInv (es : List Edge) (c : Nat)
    (hes : ∀ e ∈ es, 0 < e.travel_time) :
    ∀ (k : Nat) (s : Nat → Option ℚ), DistInv c s → DistInv c (bfIter es k s) := by
  intro k
  induction k with
  | zero => intro s h; exact h
  | succ k ih => intro s h; exact ih (relaxAll es s) (relaxAll_distInv es s c hes h)

/-- Over strictly positive weights every node other than the source has
a strictly positive computed distance. -/
lemma sssp_pos (G : Graph) (c : Nat)
    (hw : ∀ e ∈ G.edges, 0 < e.travel_time) :
    ∀ n x, n ≠ c → single_source_dijkstra_path_length G c n = some x → 0 < x := by
  have h0 : DistInv c (initDist c) := by
    constructor
    · intro n x h
      unfold initDist at h
      by_cases hn : n = c
      · rw [if_pos hn] at h
        obtain rfl : (0 : ℚ) = x := by simpa using h
        exact le_refl 0
      · rw [if_neg hn] at h
        exact absurd h (by simp)
    · intro n x hnc h
      unfold initDist at h
      rw [if_neg hnc] at h
      exact absurd h (by simp)
  exact (bfIter_distInv G.edges c hw G.nodes.length (initDist c) h0).2

/-- The reachability filter holds exactly when the node has a computed
distance within the limit. -/
lemma reachPred_eq_true_iff (G : Graph) (c : Nat) (t : ℚ) (np : Nat × Point) :
    reachPred G c t np = true ↔
      ∃ d, single_source_dijkstra_path_length G c np.1 = some d ∧ d ≤ t := by
  unfold reachPred
  cases h : single_source_dijkstra_path_length G c np.1 <;> simp [h]

/-- Membership in the reachable set of `generate_isochrone`. -/
lemma mem_reachablePairs (G : Graph) (c : Nat) (t : ℚ) (np : Nat × Point) :
    np ∈ reachablePairs G c t ↔
      np ∈ G.nodes ∧
        ∃ d, single_source_dijkstra_path_length G c np.1 = some d ∧ d ≤ t := by
  unfold reachablePairs
  rw [List.mem_filter, reachPred_eq_true_iff]

/-- The positions of the reachable nodes are exactly the point list the
spec's algorithm describes. -/
lemma reachable_map_snd (G : Graph) (c : Nat) (t : ℚ) :
    (reachablePairs G c t).map Prod.snd = spec_reachable_positions G c t := by
  unfold reachablePairs spec_reachable_positions
  have : ∀ l : List (Nat × Point),
      (l.filter (reachPred G c t)).map Prod.snd
        = l.filterMap fun np =>
            match single_source_dijkstra_path_length G c np.1 with
            | some d => if d ≤ t then some np.2 else none
            | none => none := by
    intro l
    induction l with
    | nil => rfl
    | cons np rest ih =>
      cases h : single_source_dijkstra_path_length G c np.1 with
      | none => simp [List.filter_cons, List.filterMap_cons, reachPred, h, ih]
      | some d =>
        by_cases hd : d ≤ t
        · simp [List.filter_cons, List.filterMap_cons, reachPred, h, hd, ih]
        · simp [List.filter_cons, List.filterMap_cons, reachPred, h, hd, ih]
  exact this G.nodes

/-- Membership in the spec's reachable position list. -/
lemma mem_spec_reachable_positions (G : Graph) (c : Nat) (t : ℚ) (p : Point) :
    p ∈ spec_reachable_positions G c t ↔
      ∃ n, (n, p) ∈ G.nodes ∧
        ∃ d, single_source_dijkstra_path_length G c n = some d ∧ d ≤ t := by
  unfold spec_reachable_positions
  rw [List.mem_filterMap]
  constructor
  · rintro ⟨⟨n, q⟩, hmem, hf⟩
    cases h : single_source_dijkstra_path_length G c n with
    | none => rw [h] at hf; exact absurd hf (by simp)
    | some d =>
      rw [h] at hf
      have hf' : (if d ≤ t then some q else none) = some p := hf
      by_cases hd : d ≤ t
      · rw [if_pos hd] at hf'
        obtain rfl : q = p := by simpa using hf'
        exact ⟨n, hmem, d, h, hd⟩
      · rw [if_neg hd] at hf'
        exact absurd hf' (by simp)
  · rintro ⟨n, hmem, d, hd, hdt⟩
    exact ⟨(n, p), hmem, by simp [hd, hdt]⟩

/-- `generate_isochrone` written with an explicit emptiness test on the
reachable point list. -/
lemma generate_isochrone_eq (G : Graph) (c : Nat) (t : ℚ) :
    generate_isochrone G c t
      = if (reachablePairs G c t).map Prod.snd = [] then none
        else some (convex_hull ((reachablePairs G c t).map Prod.snd)) := by
  unfold generate_isochrone
  cases h : (reachablePairs G c t).map Prod.snd <;> simp [h]

/-- A centre inside the graph is reachable at every non-negative limit. -/
lemma center_mem_reachablePairs (G : Graph) (c : Nat) (t : ℚ)
    (hc : c ∈ nodeIds G) (ht : 0 ≤ t) :
    ∃ p, (c, p) ∈ reachablePairs G c t := by
  obtain ⟨np, hnp, hfst⟩ := List.mem_map.mp hc
  obtain ⟨y, hy, hle⟩ := sssp_source_le_zero G c
  refine ⟨np.2, (mem_reachablePairs G c t (c, np.2)).mpr ⟨?_, y, hy, le_trans hle ht⟩⟩
  have : np = (c, np.2) := by
    cases np
    simp_all
  exact this ▸ hnp

/-- For a centre inside the graph and a non-negative limit,
`generate_isochrone` returns a hull. -/
lemma isochrone_isSome (G : Graph) (c : Nat) (t : ℚ)
    (hc : c ∈ nodeIds G) (ht : 0 ≤ t) :
    ∃ g, generate_isochrone G c t = some g := by
  obtain ⟨p, hp⟩ := center_mem_reachablePairs G c t hc ht
  have hne : (reachablePairs G c t).map Prod.snd ≠ [] := by
    intro hnil
    exact absurd (List.mem_map_of_mem Prod.snd hp) (by rw [hnil]; simp)
  rw [generate_isochrone_eq, if_neg hne]
  exact ⟨_, rfl⟩

/-- A row appears in the exported GeoJSON exactly when its threshold is
in the threshold list and its isochrone is not `None`. -/
lemma mem_script_export (G : Graph) (c : Nat) (ts : List ℚ) (t : ℚ) (g : Geom) :
    (t, g) ∈ script_export G c ts ↔
      t ∈ ts ∧ generate_isochrone G c t = some g := by
  unfold script_export exportRows script_isochrones
  rw [List.filterMap_map, List.mem_filterMap]
  constructor
  · rintro ⟨t', ht', hf⟩
    cases hgi : generate_isochrone G c t' with
    | none => rw [Function.comp_apply, hgi] at hf; exact absurd hf (by simp)
    | some g' =>
      rw [Function.comp_apply, hgi] at hf
      obtain ⟨rfl, rfl⟩ : t' = t ∧ g' = g := by simpa using hf
      exact ⟨ht', hgi⟩
  · rintro ⟨ht, hgi⟩
    exact ⟨t, ht, by simp [hgi]⟩

/-- The convex hull of one point is that point (shapely's degenerate
Point hull). -/
lemma convex_hull_singleton (p : Point) : convex_hull [p] = Geom.point p := rfl

/-- With every isochrone present, the export loop drops nothing: the
exported thresholds are the script's thresholds. -/
lemma export_all_thresholds (G : Graph) (c : Nat) :
    ∀ ts : List ℚ, (∀ t ∈ ts, ∃ g, generate_isochrone G c t = some g) →
      (script_export G c ts).map Prod.fst = ts := by
  intro ts
  induction ts with
  | nil => intro _; rfl
  | cons t rest ih =>
    intro h
    obtain ⟨g, hg⟩ := h t (List.mem_cons_self t rest)
    have htail := ih fun t' ht' => h t' (List.mem_cons_of_mem t ht')
    unfold script_export script_isochrones exportRows at htail ⊢
    simp only [List.map_cons, List.filterMap_cons, hg, Option.map_some]
    simpa using htail

/-- The CRS tag produced by the buffer script's conditional reprojection
is always the target CRS. -/
lemma reproject_to_target_crs (l : Layer) :
    (reproject_to_target l).crs = target_crs := by
  unfold reproject_to_target
  split_ifs with h
  · rfl
  · exact not_not.mp h

/-- Claim C1: `generate_isochrone` returns the 2-D convex hull of the
positions of exactly those nodes whose Dijkstra shortest-path travel
time from the centre is within the limit, and `None` when no node
qualifies. -/
theorem C1_isochrone_matches_spec (G : Graph) (c : Nat) (t : ℚ)
    (_hc : c ∈ nodeIds G) :
    (generate_isochrone G c t = none ↔ spec_reachable_positions G c t = []) ∧
      (spec_reachable_positions G c t ≠ [] →
        generate_isochrone G c t
          = some (convex_hull (spec_reachable_positions G c t))) ∧
      ∀ p, p ∈ spec_reachable_positions G c t ↔
        ∃ n, (n, p) ∈ G.nodes ∧
          ∃ d, single_source_dijkstra_path_length G c n = some d ∧ d ≤ t := by
  rw [generate_isochrone_eq, reachable_map_snd]
  refine ⟨?_, ?_, fun p => mem_spec_reachable_positions G c t p⟩
  · by_cases h : spec_reachable_positions G c t = []
    · simp [h]
    · simp [h]
  · intro h
    rw [if_neg h]

/-- Claim C1 witness at a concrete three-node network. -/
theorem C1_witness :
    spec_reachable_positions g3 0 2 ≠ [] ∧
      generate_isochrone g3 0 2
        = some (convex_hull (spec_reachable_positions g3 0 2)) :=
  have hne : spec_reachable_positions g3 0 2 ≠ [] :=
    of_decide_eq_true (by with_unfolding_all rfl)
  ⟨hne, (C1_isochrone_matches_spec g3 0 2 (by decide)).2.1 hne⟩

/-- Claim C2 counterexample: a run whose reachability result is empty at
one threshold raises no error; the export loop silently drops that row
and produces a partial, non-empty output. -/
theorem C2_counterexample :
    generate_isochrone g1 0 (-1) = none ∧
      script_export g1 0 [-1, 300] = [(300, Geom.point p0)] ∧
      script_export g1 0 [-1, 300] ≠ [] :=
  of_decide_eq_true (by with_unfolding_all rfl)

/-- Claim C2 amended: the script has no error path for an empty
reachability result — the export loop skips `None` rows; moreover, for a
centre in the graph and the script's non-negative thresholds no result
is ever empty, so every threshold row appears in the output. -/
theorem C2_no_error_on_empty (G : Graph) (c : Nat) (ts : List ℚ)
    (hc : c ∈ nodeIds G) (hts : ∀ t ∈ ts, 0 ≤ t) :
    (script_export G c ts).map Prod.fst = ts :=
  export_all_thresholds G c ts fun t ht => isochrone_isSome G c t hc (hts t ht)

/-- Claim C2 amended witness at the script's actual thresholds. -/
theorem C2_witness :
    (script_export g3 0 thresholds_seconds).map Prod.fst = thresholds_seconds :=
  C2_no_error_on_empty g3 0 thresholds_seconds (by decide)
    (by
      intro t ht
      have h : t = 5 * 60 ∨ t = 10 * 60 ∨ t = 15 * 60 := by
        simpa [thresholds_seconds] using ht
      rcases h with rfl | rfl | rfl <;> norm_num)

/-- Claim C3 counterexample: with exactly one reachable node the hull is
a degenerate Point, and the export loop does export it (only `None` is
skipped), so a non-polygon geometry reaches the output file. -/
theorem C3_counterexample :
    reachableIds g1 0 300 = [0] ∧
      (300, Geom.point p0) ∈ script_export g1 0 thresholds_seconds ∧
      isPolygon (Geom.point p0) = false :=
  of_decide_eq_true (by with_unfolding_all rfl)

/-- Claim C3 amended: only the zero-reachable-node case yields `None`
and is skipped by the export loop; a single reachable node yields a
degenerate Point hull which is exported as-is. -/
theorem C3_degenerate_export (G : Graph) (c : Nat) (t : ℚ) :
    (reachablePairs G c t = [] →
      generate_isochrone G c t = none ∧
        ∀ (ts : List ℚ) (g : Geom), (t, g) ∉ script_export G c ts) ∧
      ∀ n p, reachablePairs G c t = [(n, p)] →
        generate_isochrone G c t = some (Geom.point p) ∧
          ∀ ts : List ℚ, t ∈ ts → (t, Geom.point p) ∈ script_export G c ts := by
  constructor
  · intro h
    have hnone : generate_isochrone G c t = none := by
      rw [generate_isochrone_eq, h]
      simp
    refine ⟨hnone, ?_⟩
    intro ts g hmem
    obtain ⟨-, hsome⟩ := (mem_script_export G c ts t g).mp hmem
    rw [hnone] at hsome
    exact absurd hsome (by simp)
  · intro n p h
    have hsome : generate_isochrone G c t = some (Geom.point p) := by
      rw [generate_isochrone_eq, h]
      simp [convex_hull_singleton]
    exact ⟨hsome, fun ts ht =>
      (mem_script_export G c ts t (Geom.point p)).mpr ⟨ht, hsome⟩⟩

/-- Claim C3 amended witness: the one-node network at a negative
threshold is skipped, and at threshold 300 its Point hull is exported. -/
theorem C3_witness :
    (reachablePairs g1 0 (-1) = [] ∧ generate_isochrone g1 0 (-1) = none) ∧
      reachablePairs g1 0 300 = [(0, p0)] ∧
        (300, Geom.point p0) ∈ script_export g1 0 [300] :=
  have h1 : reachablePairs g1 0 (-1) = [] := by decide
  have h2 : reachablePairs g1 0 300 = [(0, p0)] := by decide
  ⟨⟨h1, ((C3_degenerate_export g1 0 (-1)).1 h1).1⟩,
    ⟨h2, ((C3_degenerate_export g1 0 300).2 0 p0 h2).2 [300] (by simp)⟩⟩

/-- Claim C4: the reachable-node set is monotone in the threshold. -/
theorem C4_reachable_monotone (G : Graph) (c : Nat) (t1 t2 : ℚ)
    (_hc : c ∈ nodeIds G) (h : t1 < t2) :
    ∀ np, np ∈ reachablePairs G c t1 → np ∈ reachablePairs G c t2 := by
  intro np hmem
  obtain ⟨hn, d, hd, hdt⟩ := (mem_reachablePairs G c t1 np).mp hmem
  exact (mem_reachablePairs G c t2 np).mpr ⟨hn, d, hd, le_trans hdt (le_of_lt h)⟩

/-- Claim C4 witness on the three-node network. -/
theorem C4_witness :
    ((2 : ℚ) < 3 ∧ (0, p0) ∈ reachablePairs g3 0 2) ∧
      (0, p0) ∈ reachablePairs g3 0 3 :=
  have hm : (0, p0) ∈ reachablePairs g3 0 2 :=
    of_decide_eq_true (by with_unfolding_all rfl)
  ⟨⟨by norm_num, hm⟩, C4_reachable_monotone g3 0 2 3 (by decide) (by norm_num) (0, p0) hm⟩

/-- Claim C5 counterexample: the travel-time loop gives weight 0 to a
zero-length edge, and then a node other than the centre is reachable at
threshold 0. -/
theorem C5_counterexample :
    gz.edges = [⟨0, 1, 0⟩] ∧ (1 : Nat) ∈ reachableIds gz 0 0 ∧ (1 : Nat) ≠ 0 :=
  of_decide_eq_true (by with_unfolding_all rfl)

/-- Claim C5 amended: if every edge's derived travel time is strictly
positive (equivalently, every edge has positive length), the
reachability result at threshold 0 contains exactly the centre. -/
theorem C5_zero_threshold (G : Graph) (c : Nat)
    (hw : ∀ e ∈ G.edges, 0 < e.travel_time) (hc : c ∈ nodeIds G) :
    ∀ n, n ∈ reachableIds G c 0 ↔ n = c := by
  intro n
  constructor
  · intro hmem
    obtain ⟨np, hnp, hfst⟩ := List.mem_map.mp hmem
    obtain ⟨-, d, hd, hdt⟩ := (mem_reachablePairs G c 0 np).mp hnp
    by_contra hne
    have hne' : np.1 ≠ c := by rw [hfst]; exact hne
    exact absurd hdt (not_le.mpr (sssp_pos G c hw np.1 d hne' hd))
  · intro hn
    subst hn
    obtain ⟨p, hp⟩ := center_mem_reachablePairs G n 0 hc (le_refl 0)
    exact List.mem_map.mpr ⟨(n, p), hp, rfl⟩

/-- Claim C5 amended witness on a positive-weight two-node network. -/
theorem C5_witness :
    (∀ e ∈ g2.edges, 0 < e.travel_time) ∧
      ((1 : Nat) ∈ reachableIds g2 0 0 ↔ (1 : Nat) = 0) :=
  have hw : ∀ e ∈ g2.edges, 0 < e.travel_time := by
    intro e he
    have h : e = ⟨0, 1, 1⟩ := by simpa [g2] using he
    rw [h]
    norm_num
  ⟨hw, C5_zero_threshold g2 0 hw (by decide) 1⟩

/-- Claim C6: the derived travel time is non-negative — `length / speed`
for positive length, 0 otherwise — so every edge weight of the graph the
travel-time loop builds satisfies Dijkstra's non-negativity
precondition. -/
theorem C6_travel_time_nonneg (len : Option ℚ) (ns : List (Nat × Point))
    (es : List RawEdge) (e : Edge) :
    0 ≤ add_travel_time len ∧
      (0 < len.getD 0 → add_travel_time len = len.getD 0 / speed_mps) ∧
      (¬0 < len.getD 0 → add_travel_time len = 0) ∧
      (e ∈ (mkGraph ns es).edges → 0 ≤ e.travel_time) := by
  have hspeed : 0 < speed_mps := by norm_num [speed_mps, speed_mph]
  have hnn : ∀ l : Option ℚ, 0 ≤ add_travel_time l := by
    intro l
    unfold add_travel_time
    split_ifs with h
    · exact le_of_lt (div_pos h hspeed)
    · exact le_refl 0
  refine ⟨hnn len, ?_, ?_, ?_⟩
  · intro h
    unfold add_travel_time
    rw [if_pos h]
  · intro h
    unfold add_travel_time
    rw [if_neg h]
  · intro he
    unfold mkGraph at he
    obtain ⟨re, -, rfl⟩ := List.mem_map.mp he
    exact hnn re.length

/-- Claim C6 witness on a length-100 edge. -/
theorem C6_witness :
    ((0 : ℚ) < (some (100 : ℚ)).getD 0 ∧
        add_travel_time (some 100) = (some (100 : ℚ)).getD 0 / speed_mps) ∧
      (⟨0, 1, add_travel_time (some 100)⟩ : Edge)
          ∈ (mkGraph [(0, p0)] [⟨0, 1, some 100⟩]).edges ∧
        0 ≤ (⟨0, 1, add_travel_time (some 100)⟩ : Edge).travel_time :=
  have h1 : (0 : ℚ) < (some (100 : ℚ)).getD 0 := by norm_num
  have h2 : (⟨0, 1, add_travel_time (some 100)⟩ : Edge)
      ∈ (mkGraph [(0, p0)] [⟨0, 1, some 100⟩]).edges := by
    simp [mkGraph]
  ⟨⟨h1, (C6_travel_time_nonneg (some 100) [(0, p0)] [⟨0, 1, some 100⟩]
      ⟨0, 1, add_travel_time (some 100)⟩).2.1 h1⟩,
    h2, (C6_travel_time_nonneg (some 100) [(0, p0)] [⟨0, 1, some 100⟩]
      ⟨0, 1, add_travel_time (some 100)⟩).2.2.2 h2⟩

/-- Claim C7: the buffer script reprojects schools, police, fire and
county to the one target CRS before its geometric operations, so the
`sjoin_nearest` and buffer participants share a CRS; the network script
reprojects schools to the graph CRS before the nearest-node lookup. -/
theorem C7_crs_invariant (s : BufferScriptState) (schools : Layer)
    (graph_crs : String) :
    ((buffer_script_reproject s).schools.crs = target_crs ∧
        (buffer_script_reproject s).police.crs = target_crs ∧
        (buffer_script_reproject s).fire.crs = target_crs ∧
        (buffer_script_reproject s).county.crs = target_crs) ∧
      ((buffer_script_reproject s).schools.crs
          = (buffer_script_reproject s).police.crs ∧
        (buffer_script_reproject s).schools.crs
          = (buffer_script_reproject s).fire.crs) ∧
      (network_script_schools schools graph_crs).crs = graph_crs := by
  refine ⟨⟨?_, ?_, ?_, ?_⟩, ⟨?_, ?_⟩, rfl⟩
  · exact reproject_to_target_crs s.schools
  · exact reproject_to_target_crs s.police
  · exact reproject_to_target_crs s.fire
  · exact reproject_to_target_crs s.county
  · show (reproject_to_target s.schools).crs = (reproject_to_target s.police).crs
    rw [reproject_to_target_crs, reproject_to_target_crs]
  · show (reproject_to_target s.schools).crs = (reproject_to_target s.fire).crs
    rw [reproject_to_target_crs, reproject_to_target_crs]

/-- Claim C8: every school point lies inside its own buffer for each of
the script's buffer distances. -/
theorem C8_buffer_contains_center (p : Point) (nm : String) (d : ℚ)
    (h : (nm, d) ∈ buffer_distances) : buffer_contains p d p = true := by
  have key : ∀ dd : ℚ, 0 < dd → buffer_contains p dd p = true := by
    intro dd hdd
    unfold buffer_contains sqDist
    rw [Bool.and_eq_true, decide_eq_true_iff, decide_eq_true_iff]
    refine ⟨hdd, ?_⟩
    have hz : (p.x - p.x) ^ 2 + (p.y - p.y) ^ 2 = 0 := by ring
    rw [hz]
    exact pow_pos hdd 2
  simp only [buffer_distances, List.mem_cons, List.not_mem_nil, or_false] at h
  rcases h with h | h | h <;>
    exact key d (by rw [show d = _ from congrArg Prod.snd h]; norm_num)

/-- Claim C8 witness at the 1-mile distance. -/
theorem C8_witness :
    ("1_mile", (1 : ℚ) * 1609.34) ∈ buffer_distances ∧
      buffer_contains p0 ((1 : ℚ) * 1609.34) p0 = true :=
  have hm : ("1_mile", (1 : ℚ) * 1609.34) ∈ buffer_distances := by
    simp [buffer_distances]
  ⟨hm, C8_buffer_contains_center p0 "1_mile" ((1 : ℚ) * 1609.34) hm⟩

/-- Claim C9 counterexample: with the `name` column absent the script's
lookup does not raise — `selected_school.get` substitutes the default
"Selected School" and the run continues. -/
theorem C9_counterexample :
    List.find? (fun kv => kv.1 == "name") [("FID", "1")] = none ∧
      school_name [("FID", "1")] = "Selected School" :=
  ⟨rfl, rfl⟩

/-- Claim C9 amended: a missing `name` attribute column is not a fatal
error; the network script falls back to the default "Selected School". -/
theorem C9_missing_name_defaults (row : List (String × String))
    (h : row.find? (fun kv => kv.1 == "name") = none) :
    school_name row = "Selected School" := by
  unfold school_name series_get
  rw [h]

/-- Claim C9 amended witness on a row without a `name` column. -/
theorem C9_witness : school_name [("OBJECTID", "7")] = "Selected School" :=
  C9_missing_name_defaults [("OBJECTID", "7")] rfl

/-- Claim C10: for a centre node in the graph and a non-negative limit,
`generate_isochrone` never returns `None` — the Dijkstra result always
contains the source within the limit, so the empty branch is
unreachable. -/
theorem C10_isochrone_never_none (G : Graph) (c : Nat) (t : ℚ)
    (hc : c ∈ nodeIds G) (ht : 0 ≤ t) : generate_isochrone G c t ≠ none := by
  obtain ⟨g, hg⟩ := isochrone_isSome G c t hc ht
  rw [hg]
  exact Option.some_ne_none g

/-- Claim C10 witness on the three-node network. -/
theorem C10_witness :
    (0 ∈ nodeIds g3 ∧ (0 : ℚ) ≤ 300) ∧ generate_isochrone g3 0 300 ≠ none :=
  ⟨⟨by decide, by norm_num⟩,
    C10_isochrone_never_none g3 0 300 (by decide) (by norm_num)⟩

end Pasco
